import Mathlib

/-!
# Verification of the HTTP↔stdio MCP bridge (`src/http-bridge.js`)

A shallow embedding of the `HTTPBridge` class: the method normalizer, the
bearer-token gate of the `/mcp` route, the newline-framed transport codec,
and the supervisor / correlator state machine (`sendToChild`,
`handleChildOutput`, `handleChildExit`, `initializeChild`, restart logic),
together with theorems settling the specification claims about them.

JavaScript runtime pieces that are not part of the repository are modelled
abstractly: `JSON.parse` is an arbitrary function `List Char → Option Msg`
(only the correlation id and the presence of an `error` field matter to the
bridge), promises become caller tokens stored in the in-flight map, and the
event loop becomes an explicit operation trace.
-/

namespace Bridge

/-- JSON values, as far as the bridge inspects them (`params` objects are
passed through opaquely; `{}` is `Json.obj []`). -/
inductive Json where
  | null : Json
  | bool : Bool → Json
  | num : Int → Json
  | str : String → Json
  | arr : List Json → Json
  | obj : List (String × Json) → Json

/-- `HTTPBridge.normalizeMethod` (http-bridge.js lines 68–85): map external
method spellings onto the canonical MCP method names and parameter shapes.
The `switch` falls through pairs of `case` labels; the `default` arm returns
the input unchanged. -/
def normalizeMethod (method : String) (params : Json) : String × Json :=
  match method with
  | "listTools" => ("tools/list", Json.obj [])
  | "tools/list" => ("tools/list", Json.obj [])
  | "callTool" => ("tools/call", params)
  | "tools/call" => ("tools/call", params)
  | "listResources" => ("resources/list", Json.obj [])
  | "resources/list" => ("resources/list", Json.obj [])
  | "readResource" => ("resources/read", params)
  | "resources/read" => ("resources/read", params)
  | _ => (method, params)

/-- Outcome of the bearer-token gate at the top of the `POST /mcp` handler. -/
inductive AuthOutcome where
  | unauthorized : Nat → Int → String → Nat → AuthOutcome
  | proceed : AuthOutcome
deriving DecidableEq

/-- The auth check of the `/mcp` route (http-bridge.js lines 121–129):
`process.env.MCP_HTTP_TOKEN` is `envToken` (`none` when unset; the empty
string is falsy in JavaScript, so it disables the check too), and
`req.headers.authorization` is `authHeader` (`none` when the header is
absent).  On mismatch the handler returns early with HTTP 401 and the
JSON-RPC error envelope `code -32001, message "Unauthorized"`; otherwise the
request proceeds toward the child. -/
def mcpAuthCheck (envToken : Option String) (authHeader : Option String)
    (rid : Nat) : AuthOutcome :=
  match envToken with
  | none => AuthOutcome.proceed
  | some t =>
      if t = "" then AuthOutcome.proceed
      else if authHeader = some ("Bearer " ++ t) then AuthOutcome.proceed
      else AuthOutcome.unauthorized 401 (-32001) "Unauthorized" rid

/-- One complete line is whitespace-only exactly when JavaScript's
`!line.trim()` is truthy (http-bridge.js line 260). -/
def wsOnly (l : List Char) : Bool :=
  l.all (fun c => c.isWhitespace)

/-- The framing loop of `handleChildOutput` (http-bridge.js lines 254–258):
split the accumulated buffer at each `"\n"`, returning the complete lines in
order and the trailing partial line that stays in the buffer. -/
def extractLines : List Char → List (List Char) × List Char
  | [] => ([], [])
  | c :: cs =>
      let r := extractLines cs
      if c = '\n' then ([] :: r.1, r.2)
      else
        match r.1 with
        | [] => ([], c :: r.2)
        | l :: ls => ((c :: l) :: ls, r.2)

/-- A JSON-RPC message from the child, as far as the bridge inspects it:
its correlation `id` and whether it carries an `error` member (the bridge
itself never looks at `error`; the field is kept so theorems can speak about
error envelopes). -/
structure Msg where
  id : Nat
  isError : Bool
deriving DecidableEq

/-- The errors with which a pending caller can be rejected, or a fresh
`sendToChild` promise rejected outright. -/
inductive Err where
  | timeout : Err
  | writeFailed : Err
  | processExited : Err
deriving DecidableEq

/-- Observable effects of one synchronous step of the bridge.  `resolve` /
`reject` settle the promise of the caller token stored in the in-flight map;
`write` is a write of a serialized message to the child's stdin;
`scheduleRestart d` is the `setTimeout(..., d)` that will respawn the child. -/
inductive Event where
  | resolve : Nat → Nat → Msg → Event
  | reject : Nat → Nat → Err → Event
  | unknownIdLog : Nat → Event
  | parseErrorLog : List Char → Event
  | write : Msg → Event
  | scheduleRestart : Nat → Event
  | limitLog : Event
deriving DecidableEq

/-- The child-process handle, reduced to what the bridge reads of it:
`killed` is Node's `ChildProcess.killed`, true only after the parent itself
sent a kill signal — a child that exited on its own keeps `killed = false`. -/
structure Child where
  killed : Bool
deriving DecidableEq

/-- Lookup in the JavaScript `Map` used for `this.inflight`
(insertion-ordered association list with unique keys). -/
def mapGet : List (Nat × Nat) → Nat → Option Nat
  | [], _ => none
  | p :: t, k => if p.1 = k then some p.2 else mapGet t k

/-- `Map.set`: replace in place when the key is present, append otherwise. -/
def mapSet : List (Nat × Nat) → Nat → Nat → List (Nat × Nat)
  | [], k, v => [(k, v)]
  | p :: t, k, v => if p.1 = k then (k, v) :: t else p :: mapSet t k v

/-- `Map.delete`. -/
def mapErase : List (Nat × Nat) → Nat → List (Nat × Nat)
  | [], _ => []
  | p :: t, k => if p.1 = k then mapErase t k else p :: mapErase t k

/-- The mutable state of one `HTTPBridge` instance (http-bridge.js lines
17–32).  `inflight` maps request ids to caller tokens (standing for the
stored resolve/reject pair).  `initPromise = some i` means `this.initPromise`
currently holds the promise of the handshake that was sent with id `i`;
`initSettled` records whether that promise has already resolved or rejected
(a settled JavaScript promise never fires its handlers again). -/
structure BridgeState where
  child : Option Child
  inflight : List (Nat × Nat)
  buffer : List Char
  requestId : Nat
  isRestarting : Bool
  restartCount : Nat
  maxRestarts : Nat
  initialized : Bool
  initPromise : Option Nat
  initSettled : Bool
deriving DecidableEq

/-- Outcome of `sendToChild`: immediate rejection with
"Child process is not running", or registration plus a stdin write. -/
inductive SendOutcome where
  | rejectedNotRunning : SendOutcome
  | written : SendOutcome
deriving DecidableEq

/-- `HTTPBridge.sendToChild` (http-bridge.js lines 316–350), up to the point
where control returns to the event loop: reject at once when there is no
child handle or the handle is marked killed; otherwise store the caller under
`message.id` in the in-flight map (`Map.set` — silently replacing any entry
already there) and write the serialized line to the child's stdin.  The
60-second timer and the asynchronous write callback are delivered later as
`Op.timeoutFire` / `Op.writeFailCb` steps. -/
def sendToChild (st : BridgeState) (m : Msg) (caller : Nat) :
    BridgeState × List Event × SendOutcome :=
  match st.child with
  | none => (st, [], SendOutcome.rejectedNotRunning)
  | some ch =>
      if ch.killed then (st, [], SendOutcome.rejectedNotRunning)
      else ({ st with inflight := mapSet st.inflight m.id caller },
            [Event.write m], SendOutcome.written)

/-- Result of a call to `initializeChild`. -/
inductive InitOutcome where
  | shared : InitOutcome
  | started : Nat → InitOutcome
  | failedNotRunning : InitOutcome
deriving DecidableEq

/-- The handshake message built by `initializeChild` (it is an ordinary
request, not an error envelope). -/
def initMsg (i : Nat) : Msg := { id := i, isError := false }

/-- `HTTPBridge.initializeChild` (http-bridge.js lines 38–65): when
`this.initPromise` is non-null, return it unchanged (no second handshake
message); otherwise take a fresh id from `this.requestId++`, send the
`initialize` request through `sendToChild`, and store the resulting promise.
When `sendToChild` rejects immediately the attached `.catch` clears
`this.initPromise` back to null, so the net state keeps `initPromise = none`.
The `.then` that sets `this.initialized = true` runs when the in-flight entry
is resolved (see `handleMessage`). -/
def initializeChild (st : BridgeState) : BridgeState × List Event × InitOutcome :=
  match st.initPromise with
  | some _ => (st, [], InitOutcome.shared)
  | none =>
      let i := st.requestId
      let st1 := { st with requestId := st.requestId + 1 }
      match sendToChild st1 (initMsg i) i with
      | (st2, evs, SendOutcome.written) =>
          ({ st2 with initPromise := some i, initSettled := false },
           evs, InitOutcome.started i)
      | (st2, _, SendOutcome.rejectedNotRunning) =>
          ({ st2 with initPromise := none, initSettled := true },
           [], InitOutcome.failedNotRunning)

/-- Handling of one parsed message inside `handleChildOutput`
(http-bridge.js lines 263–274): look the id up in the in-flight map; when a
resolver is stored, delete the entry first and resolve it — the content of
the message (success or error envelope) is not inspected.  When the resolved
promise is the still-unsettled handshake promise, its `.then` marks the
handshake complete.  When no resolver is stored, the message is logged and
dropped. -/
def handleMessage (st : BridgeState) (m : Msg) : BridgeState × List Event :=
  match mapGet st.inflight m.id with
  | some c =>
      let st1 := { st with inflight := mapErase st.inflight m.id }
      if st1.initPromise = some m.id ∧ st1.initSettled = false then
        ({ st1 with initialized := true, initSettled := true },
         [Event.resolve m.id c m])
      else (st1, [Event.resolve m.id c m])
  | none => (st, [Event.unknownIdLog m.id])

/-- One complete line of child stdout (http-bridge.js lines 260–281):
whitespace-only lines are skipped, lines that fail to parse as JSON are
logged and dropped, parsed messages go to `handleMessage`.  `parse` stands
for `JSON.parse` restricted to the fields the bridge reads. -/
def handleLine (parse : List Char → Option Msg) (st : BridgeState)
    (l : List Char) : BridgeState × List Event :=
  if wsOnly l then (st, [])
  else
    match parse l with
    | none => (st, [Event.parseErrorLog l])
    | some m => handleMessage st m

/-- Fold `handleLine` over the complete lines extracted from the buffer. -/
def processLines (parse : List Char → Option Msg) (st : BridgeState) :
    List (List Char) → BridgeState × List Event
  | [] => (st, [])
  | l :: ls =>
      let r1 := handleLine parse st l
      let r2 := processLines parse r1.1 ls
      (r2.1, r1.2 ++ r2.2)

/-- `HTTPBridge.handleChildOutput` (http-bridge.js lines 252–283): append the chunk to the buffer, extract every
complete line (the trailing partial line stays buffered), and handle each
line in order. -/
def handleChildOutput (parse : List Char → Option Msg) (st : BridgeState)
    (chunk : List Char) : BridgeState × List Event :=
  ({ (processLines parse st (extractLines (st.buffer ++ chunk)).1).1
      with buffer := (extractLines (st.buffer ++ chunk)).2 },
   (processLines parse st (extractLines (st.buffer ++ chunk)).1).2)

/-- Linear restart backoff (http-bridge.js line 308): `1000 * restartCount`
milliseconds before restart attempt `k` (the code comment says "exponential",
the formula is linear). -/
def backoffDelay (k : Nat) : Nat := 1000 * k

/-- `HTTPBridge.handleChildExit` (http-bridge.js lines 285–314), run on both
the `exit` and the `error` event of the child: reset the handshake state,
reject every pending request with "Child process exited" and clear the map,
then either schedule a restart (when not already restarting and below the
restart cap, incrementing `restartCount` and scheduling the respawn after
`backoffDelay`) or log that the limit was reached.  The dead handle itself is
left in `this.child` and is not marked killed. -/
def handleChildExit (st : BridgeState) : BridgeState × List Event :=
  let drain := st.inflight.map (fun p => Event.reject p.1 p.2 Err.processExited)
  let st1 := { st with initialized := false, initPromise := none,
                       initSettled := true, inflight := [] }
  if st1.isRestarting = false ∧ st1.restartCount < st1.maxRestarts then
    ({ st1 with isRestarting := true, restartCount := st1.restartCount + 1 },
     drain ++ [Event.scheduleRestart (backoffDelay (st1.restartCount + 1))])
  else
    (st1, drain ++ [Event.limitLog])

/-- The firing of the 60 s timer armed for id `i` by `sendToChild`
(http-bridge.js lines 323–327): `if (this.inflight.delete(id)) reject(...)`.
When the rejected promise is the still-unsettled handshake promise, its
`.catch` clears `this.initPromise`. -/
def timeoutFire (st : BridgeState) (i : Nat) : BridgeState × List Event :=
  match mapGet st.inflight i with
  | some c =>
      let st1 := { st with inflight := mapErase st.inflight i }
      if st1.initPromise = some i ∧ st1.initSettled = false then
        ({ st1 with initPromise := none, initSettled := true },
         [Event.reject i c Err.timeout])
      else (st1, [Event.reject i c Err.timeout])
  | none => (st, [])

/-- The asynchronous stdin write callback reporting an error for the message
with id `i` (http-bridge.js lines 341–348): same delete-before-reject shape
as the timeout. -/
def writeFailCb (st : BridgeState) (i : Nat) : BridgeState × List Event :=
  match mapGet st.inflight i with
  | some c =>
      let st1 := { st with inflight := mapErase st.inflight i }
      if st1.initPromise = some i ∧ st1.initSettled = false then
        ({ st1 with initPromise := none, initSettled := true },
         [Event.reject i c Err.writeFailed])
      else (st1, [Event.reject i c Err.writeFailed])
  | none => (st, [])

/-- `HTTPBridge.spawnChild` (http-bridge.js lines 208–227), state part: kill
and replace the old handle with a fresh live one and reset the transport
buffer.  (The 500 ms handshake timer it arms is delivered later as an
`Op.ensureReady` step.) -/
def spawnChild (st : BridgeState) : BridgeState :=
  { st with child := some { killed := false }, buffer := [] }

/-- The events the event loop can deliver to the bridge.  `httpSend m c`
is the `sendToChild` call made by the `/mcp` handler on behalf of caller
token `c`; `ensureReady` is a call to `initializeChild` (from the handler or
from the post-spawn timer); `restartTimer` is the firing of a scheduled
restart, which respawns the child and clears `isRestarting`. -/
inductive Op where
  | chunk : List Char → Op
  | timeoutFireOp : Nat → Op
  | writeFailOp : Nat → Op
  | childExit : Op
  | httpSend : Msg → Nat → Op
  | ensureReady : Op
  | restartTimer : Op
deriving DecidableEq

/-- One synchronous step of the bridge. -/
def step (parse : List Char → Option Msg) (st : BridgeState) :
    Op → BridgeState × List Event
  | Op.chunk s => handleChildOutput parse st s
  | Op.timeoutFireOp i => timeoutFire st i
  | Op.writeFailOp i => writeFailCb st i
  | Op.childExit => handleChildExit st
  | Op.httpSend m c =>
      let r := sendToChild st m c
      (r.1, r.2.1)
  | Op.ensureReady =>
      let r := initializeChild st
      (r.1, r.2.1)
  | Op.restartTimer => ({ spawnChild st with isRestarting := false }, [])

/-- Run a trace of operations, accumulating the emitted events. -/
def run (parse : List Char → Option Msg) (st : BridgeState) :
    List Op → BridgeState × List Event
  | [] => (st, [])
  | op :: ops =>
      let r1 := step parse st op
      let r2 := run parse r1.1 ops
      (r2.1, r1.2 ++ r2.2)

/-- The state established by the `HTTPBridge` constructor (http-bridge.js
lines 17–35), which ends by calling `spawnChild`. -/
def initialBridge : BridgeState :=
  { child := some { killed := false }, inflight := [], buffer := [],
    requestId := 1, isRestarting := false, restartCount := 0,
    maxRestarts := 5, initialized := false, initPromise := none,
    initSettled := true }

/-- Events are resolutions (resolve or reject) of the caller registered
under id `i`. -/
def isResolutionFor (i : Nat) : Event → Bool
  | Event.resolve j _ _ => j == i
  | Event.reject j _ _ => j == i
  | _ => false

/-- How many resolve/reject events for id `i` an event list contains. -/
def resCount (i : Nat) (evs : List Event) : Nat :=
  (evs.filter (isResolutionFor i)).length

/-- 1 when id `i` has a pending in-flight entry, else 0. -/
def pending01 (i : Nat) (st : BridgeState) : Nat :=
  if (mapGet st.inflight i).isSome then 1 else 0

/-- The in-flight map has pairwise-distinct keys (JavaScript `Map`s always
do; association lists built by `mapSet` / `mapErase` keep it). -/
def wfMap (m : List (Nat × Nat)) : Prop :=
  (m.map Prod.fst).Nodup

/-- Operations that do not register a fresh in-flight entry under id `i`
(`httpSend` of a message with another id is allowed; `ensureReady` is
excluded because it registers whatever `requestId` happens to be). -/
def avoidsRegister (i : Nat) : Op → Bool
  | Op.httpSend m _ => m.id != i
  | Op.ensureReady => false
  | _ => true

theorem extractLines_append (xs ys : List Char) :
    extractLines (xs ++ ys) =
      ((extractLines xs).1 ++ (extractLines ((extractLines xs).2 ++ ys)).1,
       (extractLines ((extractLines xs).2 ++ ys)).2) := by
  induction xs with
  | nil => simp [extractLines]
  | cons c cs ih =>
    by_cases hc : c = '\n'
    · subst hc
      simp [extractLines, ih]
    · rcases h1 : (extractLines cs).1 with _ | ⟨l, ls⟩
      · have hx : extractLines (c :: cs) = ([], c :: (extractLines cs).2) := by
          simp [extractLines, hc, h1]
        rw [List.cons_append, extractLines, ih, hx]
        simp only [h1, List.nil_append]
        rcases h2 : (extractLines ((extractLines cs).2 ++ ys)).1 with _ | ⟨l2, ls2⟩
        · simp [extractLines, hc, h2]
        · simp [extractLines, hc, h2]
      · have hx : extractLines (c :: cs) = ((c :: l) :: ls, (extractLines cs).2) := by
          simp [extractLines, hc, h1]
        rw [List.cons_append, extractLines, ih, hx]
        simp [h1, hc]

theorem processLines_append (parse : List Char → Option Msg)
    (st : BridgeState) (ls1 ls2 : List (List Char)) :
    processLines parse st (ls1 ++ ls2) =
      ((processLines parse (processLines parse st ls1).1 ls2).1,
       (processLines parse st ls1).2 ++
         (processLines parse (processLines parse st ls1).1 ls2).2) := by
  induction ls1 generalizing st with
  | nil => simp [processLines]
  | cons l ls ih => simp [processLines, ih]

/-- `handleMessage` touches only `inflight`, `initialized` and
`initSettled`; every other field rides along unchanged. -/
theorem handleMessage_skeleton (st : BridgeState) (m : Msg) :
    (handleMessage st m).1.child = st.child ∧
    (handleMessage st m).1.buffer = st.buffer ∧
    (handleMessage st m).1.requestId = st.requestId ∧
    (handleMessage st m).1.isRestarting = st.isRestarting ∧
    (handleMessage st m).1.restartCount = st.restartCount ∧
    (handleMessage st m).1.maxRestarts = st.maxRestarts ∧
    (handleMessage st m).1.initPromise = st.initPromise := by
  unfold handleMessage
  rcases mapGet st.inflight m.id with _ | c
  · simp
  · simp
    split <;> simp

theorem handleLine_skeleton (parse : List Char → Option Msg)
    (st : BridgeState) (l : List Char) :
    (handleLine parse st l).1.child = st.child ∧
    (handleLine parse st l).1.buffer = st.buffer ∧
    (handleLine parse st l).1.requestId = st.requestId ∧
    (handleLine parse st l).1.isRestarting = st.isRestarting ∧
    (handleLine parse st l).1.restartCount = st.restartCount ∧
    (handleLine parse st l).1.maxRestarts = st.maxRestarts ∧
    (handleLine parse st l).1.initPromise = st.initPromise := by
  unfold handleLine
  split
  · simp
  · rcases parse l with _ | m
    · simp
    · simpa using handleMessage_skeleton st m

theorem processLines_skeleton (parse : List Char → Option Msg)
    (st : BridgeState) (ls : List (List Char)) :
    (processLines parse st ls).1.child = st.child ∧
    (processLines parse st ls).1.buffer = st.buffer ∧
    (processLines parse st ls).1.requestId = st.requestId ∧
    (processLines parse st ls).1.isRestarting = st.isRestarting ∧
    (processLines parse st ls).1.restartCount = st.restartCount ∧
    (processLines parse st ls).1.maxRestarts = st.maxRestarts ∧
    (processLines parse st ls).1.initPromise = st.initPromise := by
  induction ls generalizing st with
  | nil => simp [processLines]
  | cons l ls ih =>
    have h1 := handleLine_skeleton parse st l
    have h2 := ih (handleLine parse st l).1
    simp only [processLines]
    exact ⟨h2.1.trans h1.1, h2.2.1.trans h1.2.1, h2.2.2.1.trans h1.2.2.1,
      h2.2.2.2.1.trans h1.2.2.2.1, h2.2.2.2.2.1.trans h1.2.2.2.2.1,
      h2.2.2.2.2.2.1.trans h1.2.2.2.2.2.1, h2.2.2.2.2.2.2.trans h1.2.2.2.2.2.2⟩

/-- `handleMessage` neither reads nor writes the transport buffer. -/
theorem handleMessage_buffer (st : BridgeState) (m : Msg) (b : List Char) :
    handleMessage { st with buffer := b } m =
      ({ (handleMessage st m).1 with buffer := b }, (handleMessage st m).2) := by
  unfold handleMessage
  rcases mapGet st.inflight m.id with _ | c
  · simp
  · simp
    split <;> simp

theorem handleLine_buffer (parse : List Char → Option Msg)
    (st : BridgeState) (l : List Char) (b : List Char) :
    handleLine parse { st with buffer := b } l =
      ({ (handleLine parse st l).1 with buffer := b }, (handleLine parse st l).2) := by
  unfold handleLine
  split
  · simp
  · rcases parse l with _ | m
    · simp
    · simpa using handleMessage_buffer st m b

theorem processLines_buffer (parse : List Char → Option Msg)
    (st : BridgeState) (ls : List (List Char)) (b : List Char) :
    processLines parse { st with buffer := b } ls =
      ({ (processLines parse st ls).1 with buffer := b },
       (processLines parse st ls).2) := by
  induction ls generalizing st with
  | nil => simp [processLines]
  | cons l ls ih =>
    simp only [processLines, handleLine_buffer, ih]

/-- Chunk-boundary tolerance: feeding `a ++ b` is the same as feeding `a`
then `b` — same messages handled in the same order, same final state. -/
theorem handleChildOutput_split (parse : List Char → Option Msg)
    (st : BridgeState) (a b : List Char) :
    handleChildOutput parse st (a ++ b) =
      ((handleChildOutput parse (handleChildOutput parse st a).1 b).1,
       (handleChildOutput parse st a).2 ++
         (handleChildOutput parse (handleChildOutput parse st a).1 b).2) := by
  have hassoc : st.buffer ++ (a ++ b) = (st.buffer ++ a) ++ b :=
    (List.append_assoc st.buffer a b).symm
  simp only [handleChildOutput, hassoc, extractLines_append (st.buffer ++ a) b]
  rw [processLines_append, processLines_buffer]
  have h2 := processLines_buffer parse
    (processLines parse st (extractLines (st.buffer ++ a)).1).1
    (extractLines ((extractLines (st.buffer ++ a)).2 ++ b)).1
    (extractLines (st.buffer ++ a)).2
  simp [h2]

theorem mapGet_mapErase_self (m : List (Nat × Nat)) (k : Nat) :
    mapGet (mapErase m k) k = none := by
  induction m with
  | nil => rfl
  | cons p t ih => by_cases h : p.1 = k <;> simp [mapErase, mapGet, h, ih]

theorem mapGet_mapErase_ne (m : List (Nat × Nat)) (k i : Nat) (h : i ≠ k) :
    mapGet (mapErase m k) i = mapGet m i := by
  induction m with
  | nil => rfl
  | cons p t ih =>
    by_cases h1 : p.1 = k
    · have h2 : ¬ p.1 = i := by omega
      simp [mapErase, mapGet, h1, h2, Ne.symm h, ih]
    · by_cases h2 : p.1 = i <;> simp [mapErase, mapGet, h1, h2, h, ih]

theorem mapGet_mapSet_self (m : List (Nat × Nat)) (k v : Nat) :
    mapGet (mapSet m k v) k = some v := by
  induction m with
  | nil => simp [mapGet, mapSet]
  | cons p t ih => by_cases h : p.1 = k <;> simp [mapGet, mapSet, h, ih]

theorem mapGet_mapSet_ne (m : List (Nat × Nat)) (k v i : Nat) (h : i ≠ k) :
    mapGet (mapSet m k v) i = mapGet m i := by
  induction m with
  | nil => simp [mapGet, mapSet, Ne.symm h]
  | cons p t ih =>
    by_cases h1 : p.1 = k
    · have h2 : ¬ p.1 = i := by omega
      simp [mapGet, mapSet, h1, h2, Ne.symm h]
    · by_cases h2 : p.1 = i <;> simp [mapGet, mapSet, h1, h2, h, ih]

theorem mapGet_eq_none_of_not_mem (m : List (Nat × Nat)) (i : Nat)
    (h : i ∉ m.map Prod.fst) : mapGet m i = none := by
  induction m with
  | nil => rfl
  | cons p t ih =>
    simp only [List.map_cons, List.mem_cons] at h
    push_neg at h
    simp [mapGet, Ne.symm h.1, ih h.2]

theorem mem_keys_mapErase (m : List (Nat × Nat)) (k x : Nat) :
    x ∈ (mapErase m k).map Prod.fst → x ∈ m.map Prod.fst := by
  induction m with
  | nil => simp [mapErase]
  | cons p t ih =>
    intro h
    by_cases h1 : p.1 = k
    · simp only [mapErase, if_pos h1] at h
      exact List.mem_cons_of_mem _ (ih h)
    · simp only [mapErase, if_neg h1, List.map_cons, List.mem_cons] at h
      rcases h with h | h
      · simp [h]
      · exact List.mem_cons_of_mem _ (ih h)

theorem mem_keys_mapSet (m : List (Nat × Nat)) (k v x : Nat) :
    x ∈ (mapSet m k v).map Prod.fst → x ∈ m.map Prod.fst ∨ x = k := by
  induction m with
  | nil => simp [mapSet]
  | cons p t ih =>
    intro h
    by_cases h1 : p.1 = k
    · simp only [mapSet, if_pos h1, List.map_cons, List.mem_cons] at h
      rcases h with h | h
      · right; exact h
      · left; simp [h]
    · simp only [mapSet, if_neg h1, List.map_cons, List.mem_cons] at h
      rcases h with h | h
      · left; simp [h]
      · rcases ih h with h2 | h2
        · left; exact List.mem_cons_of_mem _ h2
        · right; exact h2

theorem wfMap_mapErase (m : List (Nat × Nat)) (k : Nat) (h : wfMap m) :
    wfMap (mapErase m k) := by
  induction m with
  | nil => simpa [mapErase] using h
  | cons p t ih =>
    simp only [wfMap, List.map_cons, List.nodup_cons] at h
    by_cases h1 : p.1 = k
    · simpa only [mapErase, if_pos h1] using ih h.2
    · simp only [mapErase, if_neg h1, wfMap, List.map_cons, List.nodup_cons]
      exact ⟨fun hm => h.1 (mem_keys_mapErase t k p.1 hm), ih h.2⟩

theorem wfMap_mapSet (m : List (Nat × Nat)) (k v : Nat) (h : wfMap m) :
    wfMap (mapSet m k v) := by
  induction m with
  | nil => simp [mapSet, wfMap]
  | cons p t ih =>
    simp only [wfMap, List.map_cons, List.nodup_cons] at h
    by_cases h1 : p.1 = k
    · simp only [mapSet, if_pos h1, wfMap, List.map_cons, List.nodup_cons]
      exact ⟨h1 ▸ h.1, h.2⟩
    · simp only [mapSet, if_neg h1, wfMap, List.map_cons, List.nodup_cons]
      refine ⟨fun hm => ?_, ih h.2⟩
      rcases mem_keys_mapSet t k v p.1 hm with h2 | h2
      · exact h.1 h2
      · exact h1 h2

theorem resCount_append (i : Nat) (e1 e2 : List Event) :
    resCount i (e1 ++ e2) = resCount i e1 + resCount i e2 := by
  simp [resCount, List.filter_append]

theorem resCount_cons (i : Nat) (ev : Event) (evs : List Event) :
    resCount i (ev :: evs) =
      (if isResolutionFor i ev then 1 else 0) + resCount i evs := by
  simp only [resCount, List.filter_cons]
  split <;> (simp; try omega)

theorem resCount_drain (m : List (Nat × Nat)) (e : Err) (i : Nat)
    (hwf : wfMap m) :
    resCount i (m.map (fun p => Event.reject p.1 p.2 e)) =
      if (mapGet m i).isSome then 1 else 0 := by
  induction m with
  | nil => simp [resCount, mapGet]
  | cons p t ih =>
    simp only [wfMap, List.map_cons, List.nodup_cons] at hwf
    simp only [List.map_cons, resCount_cons]
    by_cases h1 : p.1 = i
    · have hget : mapGet t i = none :=
        mapGet_eq_none_of_not_mem t i (h1 ▸ hwf.1)
      have hz := ih hwf.2
      rw [hget] at hz
      simp only [Option.isSome_none, Bool.false_eq_true, if_false] at hz
      simp [isResolutionFor, h1, hz, mapGet]
    · have hz := ih hwf.2
      simp [isResolutionFor, h1, hz, mapGet]

/-- Resolution accounting for one handled message: at most one resolution
event is emitted for id `i`, and only if `i` was pending; the pending entry
is consumed by it. -/
theorem handleMessage_resCount (st : BridgeState) (m : Msg) (i : Nat) :
    resCount i (handleMessage st m).2 + pending01 i (handleMessage st m).1 ≤
      pending01 i st := by
  unfold handleMessage
  rcases hm : mapGet st.inflight m.id with _ | c
  · simp [hm, resCount, isResolutionFor, pending01]
  · simp only [hm]
    by_cases h : m.id = i
    · subst h
      have hp : pending01 m.id st = 1 := by simp [pending01, hm]
      have he : mapGet (mapErase st.inflight m.id) m.id = none :=
        mapGet_mapErase_self st.inflight m.id
      split <;> simp [resCount, isResolutionFor, pending01, he, hm]
    · have he := mapGet_mapErase_ne st.inflight m.id i (Ne.symm h)
      split <;> simp [resCount, isResolutionFor, pending01, he, h]

theorem handleMessage_wf (st : BridgeState) (m : Msg)
    (h : wfMap st.inflight) : wfMap (handleMessage st m).1.inflight := by
  unfold handleMessage
  rcases mapGet st.inflight m.id with _ | c
  · simpa using h
  · have hw := wfMap_mapErase st.inflight m.id h
    by_cases hc : st.initPromise = some m.id ∧ st.initSettled = false <;>
      simp [hc, hw]

/-- Chunk handling never rejects anybody (malformed and unknown lines are
logged, not surfaced as failures). -/
def isRejectEv : Event → Bool
  | Event.reject _ _ _ => true
  | _ => false

theorem handleMessage_noReject (st : BridgeState) (m : Msg) :
    ∀ e ∈ (handleMessage st m).2, isRejectEv e = false := by
  unfold handleMessage
  rcases mapGet st.inflight m.id with _ | c
  · simp [isRejectEv]
  · by_cases hc : st.initPromise = some m.id ∧ st.initSettled = false <;>
      simp [hc, isRejectEv]

theorem handleLine_resCount (parse : List Char → Option Msg)
    (st : BridgeState) (l : List Char) (i : Nat) :
    resCount i (handleLine parse st l).2 + pending01 i (handleLine parse st l).1 ≤
      pending01 i st := by
  unfold handleLine
  split
  · simp [resCount]
  · rcases parse l with _ | m
    · simp [resCount, isResolutionFor]
    · simpa using handleMessage_resCount st m i

theorem handleLine_wf (parse : List Char → Option Msg)
    (st : BridgeState) (l : List Char) (h : wfMap st.inflight) :
    wfMap (handleLine parse st l).1.inflight := by
  unfold handleLine
  split
  · simpa using h
  · rcases parse l with _ | m
    · simpa using h
    · simpa using handleMessage_wf st m h

theorem handleLine_noReject (parse : List Char → Option Msg)
    (st : BridgeState) (l : List Char) :
    ∀ e ∈ (handleLine parse st l).2, isRejectEv e = false := by
  unfold handleLine
  split
  · simp
  · rcases parse l with _ | m
    · simp [isRejectEv]
    · simpa using handleMessage_noReject st m

theorem processLines_resCount (parse : List Char → Option Msg)
    (st : BridgeState) (ls : List (List Char)) (i : Nat) :
    resCount i (processLines parse st ls).2 +
        pending01 i (processLines parse st ls).1 ≤
      pending01 i st := by
  induction ls generalizing st with
  | nil => simp [processLines, resCount]
  | cons l ls ih =>
    simp only [processLines, resCount_append]
    have h1 := handleLine_resCount parse st l i
    have h2 := ih (handleLine parse st l).1
    omega

theorem processLines_wf (parse : List Char → Option Msg)
    (st : BridgeState) (ls : List (List Char)) (h : wfMap st.inflight) :
    wfMap (processLines parse st ls).1.inflight := by
  induction ls generalizing st with
  | nil => simpa [processLines] using h
  | cons l ls ih =>
    simp only [processLines]
    exact ih (handleLine parse st l).1 (handleLine_wf parse st l h)

theorem processLines_noReject (parse : List Char → Option Msg)
    (st : BridgeState) (ls : List (List Char)) :
    ∀ e ∈ (processLines parse st ls).2, isRejectEv e = false := by
  induction ls generalizing st with
  | nil => simp [processLines]
  | cons l ls ih =>
    simp only [processLines, List.mem_append]
    intro e he
    rcases he with he | he
    · exact handleLine_noReject parse st l e he
    · exact ih (handleLine parse st l).1 e he

theorem timeoutFire_resCount (st : BridgeState) (j i : Nat) :
    resCount i (timeoutFire st j).2 + pending01 i (timeoutFire st j).1 ≤
      pending01 i st := by
  unfold timeoutFire
  rcases hm : mapGet st.inflight j with _ | c
  · simp [resCount, pending01]
  · simp only [hm]
    by_cases h : j = i
    · subst h
      have he : mapGet (mapErase st.inflight j) j = none :=
        mapGet_mapErase_self st.inflight j
      split <;> simp [resCount, isResolutionFor, pending01, he, hm]
    · have he := mapGet_mapErase_ne st.inflight j i (Ne.symm h)
      split <;> simp [resCount, isResolutionFor, pending01, he, h]

theorem writeFailCb_resCount (st : BridgeState) (j i : Nat) :
    resCount i (writeFailCb st j).2 + pending01 i (writeFailCb st j).1 ≤
      pending01 i st := by
  unfold writeFailCb
  rcases hm : mapGet st.inflight j with _ | c
  · simp [resCount, pending01]
  · simp only [hm]
    by_cases h : j = i
    · subst h
      have he : mapGet (mapErase st.inflight j) j = none :=
        mapGet_mapErase_self st.inflight j
      split <;> simp [resCount, isResolutionFor, pending01, he, hm]
    · have he := mapGet_mapErase_ne st.inflight j i (Ne.symm h)
      split <;> simp [resCount, isResolutionFor, pending01, he, h]

theorem resCount_nil (i : Nat) : resCount i [] = 0 := rfl

theorem handleChildExit_resCount (st : BridgeState) (i : Nat)
    (hwf : wfMap st.inflight) :
    resCount i (handleChildExit st).2 + pending01 i (handleChildExit st).1 ≤
      pending01 i st := by
  unfold handleChildExit
  have hd := resCount_drain st.inflight Err.processExited i hwf
  by_cases hb : st.isRestarting = false ∧ st.restartCount < st.maxRestarts <;>
    simp [hb, resCount_append, hd, resCount_cons, resCount_nil,
      isResolutionFor, pending01, mapGet]

/-- One step never settles a caller of id `i` more than the pending budget
for `i` allows, provided the step does not register a fresh entry for `i`. -/
theorem step_resCount (parse : List Char → Option Msg) (st : BridgeState)
    (op : Op) (i : Nat) (hwf : wfMap st.inflight)
    (hop : avoidsRegister i op = true) :
    resCount i (step parse st op).2 + pending01 i (step parse st op).1 ≤
      pending01 i st := by
  cases op with
  | chunk s =>
    have h := processLines_resCount parse st (extractLines (st.buffer ++ s)).1 i
    simpa [step, handleChildOutput, pending01] using h
  | timeoutFireOp j => simpa [step] using timeoutFire_resCount st j i
  | writeFailOp j => simpa [step] using writeFailCb_resCount st j i
  | childExit => simpa [step] using handleChildExit_resCount st i hwf
  | httpSend m c =>
    have hne : m.id ≠ i := by simpa [avoidsRegister] using hop
    unfold step sendToChild
    rcases st.child with _ | ch
    · simp [resCount, pending01]
    · by_cases hk : ch.killed
      · simp [hk, resCount, pending01]
      · have hs := mapGet_mapSet_ne st.inflight m.id c i (Ne.symm hne)
        simp [hk, resCount, isResolutionFor, pending01, hs, hne]
  | ensureReady => simp [avoidsRegister] at hop
  | restartTimer => simp [step, spawnChild, resCount, pending01]

theorem timeoutFire_wf (st : BridgeState) (j : Nat)
    (hwf : wfMap st.inflight) : wfMap (timeoutFire st j).1.inflight := by
  unfold timeoutFire
  rcases mapGet st.inflight j with _ | c
  · simpa using hwf
  · have hw := wfMap_mapErase st.inflight j hwf
    by_cases hc : st.initPromise = some j ∧ st.initSettled = false <;>
      simp [hc, hw]

theorem writeFailCb_wf (st : BridgeState) (j : Nat)
    (hwf : wfMap st.inflight) : wfMap (writeFailCb st j).1.inflight := by
  unfold writeFailCb
  rcases mapGet st.inflight j with _ | c
  · simpa using hwf
  · have hw := wfMap_mapErase st.inflight j hwf
    by_cases hc : st.initPromise = some j ∧ st.initSettled = false <;>
      simp [hc, hw]

theorem handleChildExit_wf (st : BridgeState) :
    wfMap (handleChildExit st).1.inflight := by
  unfold handleChildExit
  by_cases hb : st.isRestarting = false ∧ st.restartCount < st.maxRestarts <;>
    simp [hb, wfMap]

theorem sendToChild_wf (st : BridgeState) (m : Msg) (c : Nat)
    (hwf : wfMap st.inflight) : wfMap (sendToChild st m c).1.inflight := by
  unfold sendToChild
  rcases st.child with _ | ch
  · simpa using hwf
  · by_cases hk : ch.killed
    · simpa [hk] using hwf
    · simpa [hk] using wfMap_mapSet st.inflight m.id c hwf

theorem initializeChild_wf (st : BridgeState)
    (hwf : wfMap st.inflight) : wfMap (initializeChild st).1.inflight := by
  unfold initializeChild
  rcases hp : st.initPromise with _ | j
  · simp only [hp]
    rcases hs : sendToChild
        { st with requestId := st.requestId + 1, initPromise := none }
        (initMsg st.requestId) st.requestId with ⟨st2, evs, oc⟩
    have h2 : wfMap st2.inflight := by
      have h3 := sendToChild_wf
        { st with requestId := st.requestId + 1, initPromise := none }
        (initMsg st.requestId) st.requestId (by simpa using hwf)
      rw [hs] at h3
      simpa using h3
    cases oc <;> simpa using h2
  · simpa [hp] using hwf

theorem step_wf (parse : List Char → Option Msg) (st : BridgeState)
    (op : Op) (hwf : wfMap st.inflight) :
    wfMap (step parse st op).1.inflight := by
  cases op with
  | chunk s =>
    have h := processLines_wf parse st (extractLines (st.buffer ++ s)).1 hwf
    simpa [step, handleChildOutput] using h
  | timeoutFireOp j => simpa [step] using timeoutFire_wf st j hwf
  | writeFailOp j => simpa [step] using writeFailCb_wf st j hwf
  | childExit => simpa [step] using handleChildExit_wf st
  | httpSend m c => simpa [step] using sendToChild_wf st m c hwf
  | ensureReady => simpa [step] using initializeChild_wf st hwf
  | restartTimer => simpa [step, spawnChild] using hwf

/-- Trace-level exactly-once accounting. -/
theorem run_resCount (parse : List Char → Option Msg) (st : BridgeState)
    (ops : List Op) (i : Nat) (hwf : wfMap st.inflight)
    (hops : ∀ op ∈ ops, avoidsRegister i op = true) :
    resCount i (run parse st ops).2 + pending01 i (run parse st ops).1 ≤
      pending01 i st := by
  induction ops generalizing st with
  | nil => simp [run, resCount]
  | cons op ops ih =>
    simp only [run, resCount_append]
    have h1 := step_resCount parse st op i hwf (hops op (List.mem_cons_self op ops))
    have h2 := ih (step parse st op).1 (step_wf parse st op hwf)
      (fun o ho => hops o (List.mem_cons_of_mem op ho))
    omega

/-- The handshake-state invariant of reachable bridge states: when the
handshake is marked complete, `this.initPromise` still holds the (settled)
promise, so `initializeChild` returns it at once instead of re-running. -/
def handshakeInv (st : BridgeState) : Prop :=
  st.initialized = true → (st.initPromise.isSome ∧ st.initSettled = true)

theorem sendToChild_fields (st : BridgeState) (m : Msg) (c : Nat) :
    (sendToChild st m c).1.initialized = st.initialized ∧
    (sendToChild st m c).1.initPromise = st.initPromise ∧
    (sendToChild st m c).1.initSettled = st.initSettled ∧
    (sendToChild st m c).1.child = st.child ∧
    (sendToChild st m c).1.requestId = st.requestId ∧
    (sendToChild st m c).1.restartCount = st.restartCount ∧
    (sendToChild st m c).1.isRestarting = st.isRestarting ∧
    (sendToChild st m c).1.maxRestarts = st.maxRestarts ∧
    (sendToChild st m c).1.buffer = st.buffer := by
  unfold sendToChild
  rcases hch : st.child with _ | ch
  · simp [hch]
  · by_cases hk : ch.killed <;> simp [hch, hk]

theorem handleMessage_handshakeInv (st : BridgeState) (m : Msg)
    (h : handshakeInv st) : handshakeInv (handleMessage st m).1 := by
  unfold handleMessage
  rcases mapGet st.inflight m.id with _ | c
  · simpa using h
  · by_cases hc : st.initPromise = some m.id ∧ st.initSettled = false
    · simp [hc, handshakeInv, hc.1]
    · simpa [hc, handshakeInv] using h

theorem handleLine_handshakeInv (parse : List Char → Option Msg)
    (st : BridgeState) (l : List Char)
    (h : handshakeInv st) : handshakeInv (handleLine parse st l).1 := by
  unfold handleLine
  split
  · simpa using h
  · rcases parse l with _ | m
    · simpa using h
    · simpa using handleMessage_handshakeInv st m h

theorem processLines_handshakeInv (parse : List Char → Option Msg)
    (st : BridgeState) (ls : List (List Char))
    (h : handshakeInv st) : handshakeInv (processLines parse st ls).1 := by
  induction ls generalizing st with
  | nil => simpa [processLines] using h
  | cons l ls ih =>
    simp only [processLines]
    exact ih (handleLine parse st l).1 (handleLine_handshakeInv parse st l h)

theorem timeoutFire_handshakeInv (st : BridgeState) (j : Nat)
    (h : handshakeInv st) : handshakeInv (timeoutFire st j).1 := by
  unfold timeoutFire
  rcases mapGet st.inflight j with _ | c
  · simpa using h
  · by_cases hc : st.initPromise = some j ∧ st.initSettled = false
    · simp only [hc, if_pos]
      simp only [handshakeInv]
      intro hi
      have h2 := (h hi).2
      rw [hc.2] at h2
      exact absurd h2 (by simp)
    · simpa [hc, handshakeInv] using h

theorem writeFailCb_handshakeInv (st : BridgeState) (j : Nat)
    (h : handshakeInv st) : handshakeInv (writeFailCb st j).1 := by
  unfold writeFailCb
  rcases mapGet st.inflight j with _ | c
  · simpa using h
  · by_cases hc : st.initPromise = some j ∧ st.initSettled = false
    · simp only [hc, if_pos]
      simp only [handshakeInv]
      intro hi
      have h2 := (h hi).2
      rw [hc.2] at h2
      exact absurd h2 (by simp)
    · simpa [hc, handshakeInv] using h

theorem handleChildExit_handshakeInv (st : BridgeState) :
    handshakeInv (handleChildExit st).1 := by
  unfold handleChildExit
  by_cases hb : st.isRestarting = false ∧ st.restartCount < st.maxRestarts <;>
    simp [hb, handshakeInv]

theorem sendToChild_handshakeInv (st : BridgeState) (m : Msg) (c : Nat)
    (h : handshakeInv st) : handshakeInv (sendToChild st m c).1 := by
  have hf := sendToChild_fields st m c
  simp only [handshakeInv, hf.1, hf.2.1, hf.2.2.1]
  exact h

theorem initializeChild_handshakeInv (st : BridgeState)
    (h : handshakeInv st) : handshakeInv (initializeChild st).1 := by
  unfold initializeChild
  rcases hp : st.initPromise with _ | j
  · simp only [hp]
    rcases hs : sendToChild
        { st with requestId := st.requestId + 1, initPromise := none }
        (initMsg st.requestId) st.requestId with ⟨st2, evs, oc⟩
    have hf := sendToChild_fields
      { st with requestId := st.requestId + 1, initPromise := none }
      (initMsg st.requestId) st.requestId
    rw [hs] at hf
    have hinit : st2.initialized = st.initialized := by simpa using hf.1
    cases oc
    · simp only [handshakeInv]
      intro hi
      rw [hinit] at hi
      have := (h hi).1
      rw [hp] at this
      exact absurd this (by simp)
    · simp only [handshakeInv]
      intro hi
      rw [hinit] at hi
      have := (h hi).1
      rw [hp] at this
      exact absurd this (by simp)
  · simpa [hp] using h

theorem step_handshakeInv (parse : List Char → Option Msg)
    (st : BridgeState) (op : Op)
    (h : handshakeInv st) : handshakeInv (step parse st op).1 := by
  cases op with
  | chunk s =>
    have h2 := processLines_handshakeInv parse st
      (extractLines (st.buffer ++ s)).1 h
    simp only [step, handleChildOutput]
    simpa [handshakeInv] using h2
  | timeoutFireOp j => simpa [step] using timeoutFire_handshakeInv st j h
  | writeFailOp j => simpa [step] using writeFailCb_handshakeInv st j h
  | childExit => simpa [step] using handleChildExit_handshakeInv st
  | httpSend m c => simpa [step] using sendToChild_handshakeInv st m c h
  | ensureReady => simpa [step] using initializeChild_handshakeInv st h
  | restartTimer =>
    simp only [step, spawnChild]
    simpa [handshakeInv] using h

theorem run_handshakeInv (parse : List Char → Option Msg)
    (st : BridgeState) (ops : List Op)
    (h : handshakeInv st) : handshakeInv (run parse st ops).1 := by
  induction ops generalizing st with
  | nil => simpa [run] using h
  | cons op ops ih =>
    simp only [run]
    exact ih (step parse st op).1 (step_handshakeInv parse st op h)

/-- C7: `normalizeMethod` is a pure function mapping both list-tools
aliases to `"tools/list"` with empty params, both call-tool aliases to
`"tools/call"` with the original params unchanged, both list-resources
aliases to `"resources/list"` with empty params, both read-resource aliases
to `"resources/read"` with original params, while any unrecognized method
passes through entirely unchanged rather than producing an error; in
particular `normalizeMethod "listTools" q` and `normalizeMethod "tools/list" q`
yield identical output. -/
theorem claim7_normalizeMethod (p q : Json) (m : String) :
    normalizeMethod "listTools" p = ("tools/list", Json.obj []) ∧
    normalizeMethod "tools/list" p = ("tools/list", Json.obj []) ∧
    normalizeMethod "callTool" p = ("tools/call", p) ∧
    normalizeMethod "tools/call" p = ("tools/call", p) ∧
    normalizeMethod "listResources" p = ("resources/list", Json.obj []) ∧
    normalizeMethod "resources/list" p = ("resources/list", Json.obj []) ∧
    normalizeMethod "readResource" p = ("resources/read", p) ∧
    normalizeMethod "resources/read" p = ("resources/read", p) ∧
    (m ∉ (["listTools", "tools/list", "callTool", "tools/call",
           "listResources", "resources/list", "readResource",
           "resources/read"] : List String) →
      normalizeMethod m p = (m, p)) ∧
    normalizeMethod "listTools" q = normalizeMethod "tools/list" q := by
  refine ⟨rfl, rfl, rfl, rfl, rfl, rfl, rfl, rfl, ?_, rfl⟩
  intro hm
  simp only [List.mem_cons, List.not_mem_nil, or_false] at hm
  push_neg at hm
  unfold normalizeMethod
  split <;> simp_all

/-- C7 witness: the passthrough arm at the concrete unrecognized method
`"ping"`, and the alias identity at `{}`. -/
theorem claim7_normalizeMethod_witness :
    ("ping" ∉ (["listTools", "tools/list", "callTool", "tools/call",
                "listResources", "resources/list", "readResource",
                "resources/read"] : List String)) ∧
    normalizeMethod "ping" Json.null = ("ping", Json.null) ∧
    normalizeMethod "listTools" (Json.obj []) =
      normalizeMethod "tools/list" (Json.obj []) :=
  ⟨by decide,
   (claim7_normalizeMethod Json.null (Json.obj []) "ping").2.2.2.2.2.2.2.2.1
     (by decide),
   (claim7_normalizeMethod Json.null (Json.obj []) "ping").2.2.2.2.2.2.2.2.2⟩

/-- C9: with a static bearer token configured (a non-empty
`MCP_HTTP_TOKEN`), a `POST /mcp` request whose Authorization header is not
exactly `Bearer <token>` gets the HTTP 401 JSON-RPC envelope
`{code: -32001, message: "Unauthorized"}` and never proceeds to the child;
with no token configured no authorization check is applied. -/
theorem claim9_bearerTokenGate (t : String) (hdr : Option String) (rid : Nat) :
    (t ≠ "" → hdr ≠ some ("Bearer " ++ t) →
      mcpAuthCheck (some t) hdr rid =
        AuthOutcome.unauthorized 401 (-32001) "Unauthorized" rid ∧
      mcpAuthCheck (some t) hdr rid ≠ AuthOutcome.proceed) ∧
    mcpAuthCheck none hdr rid = AuthOutcome.proceed ∧
    mcpAuthCheck (some t) (some ("Bearer " ++ t)) rid = AuthOutcome.proceed := by
  refine ⟨?_, rfl, ?_⟩
  · intro h1 h2
    constructor
    · simp [mcpAuthCheck, h1, h2]
    · simp [mcpAuthCheck, h1, h2]
  · by_cases h : t = "" <;> simp [mcpAuthCheck, h]

/-- C9 witness: concrete token and mismatching header, and the no-token
case at a concrete header. -/
theorem claim9_bearerTokenGate_witness :
    mcpAuthCheck (some "s3cret") (some "Bearer nope") 3 =
      AuthOutcome.unauthorized 401 (-32001) "Unauthorized" 3 ∧
    mcpAuthCheck none (some "anything") 4 = AuthOutcome.proceed :=
  ⟨((claim9_bearerTokenGate "s3cret" (some "Bearer nope") 3).1
      (by decide) (by decide)).1,
   (claim9_bearerTokenGate "s3cret" (some "anything") 4).2.1⟩

theorem timeoutFire_fields (st : BridgeState) (j : Nat) :
    (timeoutFire st j).1.child = st.child ∧
    (timeoutFire st j).1.buffer = st.buffer ∧
    (timeoutFire st j).1.requestId = st.requestId ∧
    (timeoutFire st j).1.isRestarting = st.isRestarting ∧
    (timeoutFire st j).1.restartCount = st.restartCount ∧
    (timeoutFire st j).1.maxRestarts = st.maxRestarts ∧
    (timeoutFire st j).1.initialized = st.initialized := by
  unfold timeoutFire
  rcases mapGet st.inflight j with _ | c
  · simp
  · by_cases hc : st.initPromise = some j ∧ st.initSettled = false <;>
      simp [hc]

theorem writeFailCb_fields (st : BridgeState) (j : Nat) :
    (writeFailCb st j).1.child = st.child ∧
    (writeFailCb st j).1.buffer = st.buffer ∧
    (writeFailCb st j).1.requestId = st.requestId ∧
    (writeFailCb st j).1.isRestarting = st.isRestarting ∧
    (writeFailCb st j).1.restartCount = st.restartCount ∧
    (writeFailCb st j).1.maxRestarts = st.maxRestarts ∧
    (writeFailCb st j).1.initialized = st.initialized := by
  unfold writeFailCb
  rcases mapGet st.inflight j with _ | c
  · simp
  · by_cases hc : st.initPromise = some j ∧ st.initSettled = false <;>
      simp [hc]

theorem initializeChild_restartCount (st : BridgeState) :
    (initializeChild st).1.restartCount = st.restartCount := by
  unfold initializeChild
  rcases hp : st.initPromise with _ | j
  · simp only [hp]
    rcases hs : sendToChild
        { st with requestId := st.requestId + 1, initPromise := none }
        (initMsg st.requestId) st.requestId with ⟨st2, evs, oc⟩
    have hf := sendToChild_fields
      { st with requestId := st.requestId + 1, initPromise := none }
      (initMsg st.requestId) st.requestId
    rw [hs] at hf
    have h2 : st2.restartCount = st.restartCount := by
      simpa using hf.2.2.2.2.2.1
    cases oc <;> simpa using h2
  · simp [hp]

/-- C8: the transport codec is total and chunking-tolerant: feeding a byte
stream split at any chunk boundary yields the same handled messages and the
same final buffer as feeding it whole; the trailing partial line stays in
the buffer; complete whitespace-only lines are ignored without any event;
a complete line that fails to parse is dropped with a logged diagnostic;
and chunk handling never rejects (fails) any caller. -/
theorem claim8_transportCodec (parse : List Char → Option Msg)
    (st : BridgeState) (a b l : List Char) :
    (handleChildOutput parse st (a ++ b) =
      ((handleChildOutput parse (handleChildOutput parse st a).1 b).1,
       (handleChildOutput parse st a).2 ++
         (handleChildOutput parse (handleChildOutput parse st a).1 b).2)) ∧
    (wsOnly l = true → handleLine parse st l = (st, [])) ∧
    (wsOnly l = false → parse l = none →
      handleLine parse st l = (st, [Event.parseErrorLog l])) ∧
    (∀ e ∈ (handleChildOutput parse st a).2, isRejectEv e = false) ∧
    (handleChildOutput parse st a).1.buffer =
      (extractLines (st.buffer ++ a)).2 := by
  refine ⟨handleChildOutput_split parse st a b, ?_, ?_, ?_, rfl⟩
  · intro hw
    simp [handleLine, hw]
  · intro hw hp
    simp [handleLine, hw, hp]
  · intro e he
    exact processLines_noReject parse st (extractLines (st.buffer ++ a)).1 e
      (by simpa [handleChildOutput] using he)

/-- C8 witness: concrete whitespace-only and malformed lines under the
parse function that accepts nothing. -/
theorem claim8_transportCodec_witness :
    (wsOnly [' '] = true ∧
      handleLine (fun _ => (none : Option Msg)) initialBridge [' '] =
        (initialBridge, [])) ∧
    (wsOnly ['x'] = false ∧
      handleLine (fun _ => (none : Option Msg)) initialBridge ['x'] =
        (initialBridge, [Event.parseErrorLog ['x']])) :=
  ⟨⟨by decide,
    (claim8_transportCodec (fun _ => none) initialBridge [] [] [' ']).2.1
      (by decide)⟩,
   ⟨by decide,
    (claim8_transportCodec (fun _ => none) initialBridge [] [] ['x']).2.2.1
      (by decide) rfl⟩⟩

/-- C3: on every child exit (or unrecoverable error event — both handlers
call `handleChildExit`), the handshake state is synchronously reset to
not-started, every pending request is rejected exactly once with the
process-exited error, the pending map is left empty, and all of this is
emitted before any restart-scheduling event. -/
theorem claim3_childExitDrain (st : BridgeState) (i : Nat) :
    (handleChildExit st).1.initialized = false ∧
    (handleChildExit st).1.initPromise = none ∧
    (handleChildExit st).1.inflight = [] ∧
    (wfMap st.inflight →
      resCount i (handleChildExit st).2 = pending01 i st) ∧
    ∃ tail,
      (handleChildExit st).2 =
        st.inflight.map (fun p => Event.reject p.1 p.2 Err.processExited)
          ++ tail ∧
      ∀ e ∈ tail, isRejectEv e = false := by
  unfold handleChildExit
  by_cases hb : st.isRestarting = false ∧ st.restartCount < st.maxRestarts
  · refine ⟨by simp [hb], by simp [hb], by simp [hb], ?_, ?_⟩
    · intro hwf
      have hd := resCount_drain st.inflight Err.processExited i hwf
      simp [hb, resCount_append, hd, resCount_cons, resCount_nil,
        isResolutionFor, pending01]
    · refine ⟨[Event.scheduleRestart (backoffDelay (st.restartCount + 1))],
        by simp [hb], ?_⟩
      intro e he
      simp only [List.mem_singleton] at he
      simp [he, isRejectEv]
  · refine ⟨by simp [hb], by simp [hb], by simp [hb], ?_, ?_⟩
    · intro hwf
      have hd := resCount_drain st.inflight Err.processExited i hwf
      simp [hb, resCount_append, hd, resCount_cons, resCount_nil,
        isResolutionFor, pending01]
    · refine ⟨[Event.limitLog], by simp [hb], ?_⟩
      intro e he
      simp only [List.mem_singleton] at he
      simp [he, isRejectEv]

/-- C3 witness: two pending requests at the moment of a child exit. -/
theorem claim3_childExitDrain_witness :
    (handleChildExit
        { initialBridge with inflight := [(1, 10), (2, 11)] }).1.inflight = []
    ∧ wfMap ([(1, 10), (2, 11)] :
        List (Nat × Nat))
    ∧ resCount 2 (handleChildExit
        { initialBridge with inflight := [(1, 10), (2, 11)] }).2 =
      pending01 2 { initialBridge with inflight := [(1, 10), (2, 11)] } :=
  ⟨(claim3_childExitDrain
      { initialBridge with inflight := [(1, 10), (2, 11)] } 2).2.2.1,
   by simp [wfMap],
   (claim3_childExitDrain
      { initialBridge with inflight := [(1, 10), (2, 11)] } 2).2.2.2.1
     (by simp [wfMap])⟩

/-- C6: restart backoff is linear and monotone — a handled death (not
already restarting, below the cap) increments `restartCount` exactly once
and schedules the respawn after `backoffDelay (restartCount + 1)` =
`1000 * (restartCount + 1)` ms; `backoffDelay` is monotone; and no bridge
operation ever decreases `restartCount`. -/
theorem claim6_linearBackoff (parse : List Char → Option Msg)
    (st : BridgeState) (op : Op) (j k : Nat) :
    (st.isRestarting = false → st.restartCount < st.maxRestarts →
      (handleChildExit st).1.restartCount = st.restartCount + 1 ∧
      (handleChildExit st).2 =
        st.inflight.map (fun p => Event.reject p.1 p.2 Err.processExited)
          ++ [Event.scheduleRestart (backoffDelay (st.restartCount + 1))]) ∧
    (j ≤ k → backoffDelay j ≤ backoffDelay k) ∧
    st.restartCount ≤ (step parse st op).1.restartCount := by
  refine ⟨?_, ?_, ?_⟩
  · intro h1 h2
    constructor
    · simp [handleChildExit, h1, h2]
    · simp [handleChildExit, h1, h2]
  · intro hjk
    simpa [backoffDelay] using Nat.mul_le_mul_left 1000 hjk
  · cases op with
    | chunk s =>
      have h := (processLines_skeleton parse st
        (extractLines (st.buffer ++ s)).1).2.2.2.2.1
      simp [step, handleChildOutput, h]
    | timeoutFireOp i => simp [step, (timeoutFire_fields st i).2.2.2.2.1]
    | writeFailOp i => simp [step, (writeFailCb_fields st i).2.2.2.2.1]
    | childExit =>
      unfold step handleChildExit
      by_cases hb : st.isRestarting = false ∧
          st.restartCount < st.maxRestarts <;> simp [hb]
    | httpSend m c =>
      simp [step, (sendToChild_fields st m c).2.2.2.2.2.1]
    | ensureReady => simp [step, initializeChild_restartCount st]
    | restartTimer => simp [step, spawnChild]

/-- C6 witness: a first handled death at the initial state schedules the
respawn after exactly 1000 ms and bumps the count to 1. -/
theorem claim6_linearBackoff_witness :
    ((handleChildExit initialBridge).1.restartCount = 1 ∧
      (handleChildExit initialBridge).2 =
        [Event.scheduleRestart (backoffDelay 1)]) ∧
    backoffDelay 2 ≤ backoffDelay 3 :=
  ⟨by
    have h := (claim6_linearBackoff (fun _ => none) initialBridge
      Op.restartTimer 0 0).1 (by decide) (by decide)
    exact ⟨h.1, by simpa [initialBridge] using h.2⟩,
   (claim6_linearBackoff (fun _ => none) initialBridge
      Op.restartTimer 2 3).2.1 (by decide)⟩

/-- The operation trace that exhausts the restart budget: the post-spawn
handshake fires, then the child dies and is respawned `maxRestarts = 5`
times, then dies once more (the supervisor logs that the limit is
reached and schedules nothing). -/
def exhaustTrace : List Op :=
  [Op.ensureReady, Op.childExit, Op.restartTimer,
   Op.childExit, Op.restartTimer,
   Op.childExit, Op.restartTimer,
   Op.childExit, Op.restartTimer,
   Op.childExit, Op.restartTimer,
   Op.childExit]

/-- C2 counterexample: run the bridge to the permanently-stopped state
(`restartCount = maxRestarts = 5`, latest child dead of natural causes so
its `killed` flag is false).  A subsequent send does NOT fail immediately
with a permanent-unavailability error: `sendToChild` registers the request
and attempts a write to the dead child's stdin — refuting the claim that
after the restart cap every send fails fast without attempting a write. -/
theorem claim2_counterexample :
    (run (fun _ => none) initialBridge exhaustTrace).1.restartCount =
      (run (fun _ => none) initialBridge exhaustTrace).1.maxRestarts ∧
    (run (fun _ => none) initialBridge exhaustTrace).1.child =
      some { killed := false } ∧
    (sendToChild (run (fun _ => none) initialBridge exhaustTrace).1
        { id := 9, isError := false } 7).2.2 = SendOutcome.written ∧
    (sendToChild (run (fun _ => none) initialBridge exhaustTrace).1
        { id := 9, isError := false } 7).2.1 =
      [Event.write { id := 9, isError := false }] ∧
    mapGet (sendToChild (run (fun _ => none) initialBridge exhaustTrace).1
        { id := 9, isError := false } 7).1.inflight 9 = some 7 := by
  decide

/-- C2 (amended): once `restartCount` has reached `maxRestarts`, no further
restart is ever scheduled by a child death and the count stays put; but a
subsequent send fails immediately without a write only when the child handle
is absent or marked killed by the bridge itself — after a child exited on
its own (`killed = false`), `sendToChild` registers the request and attempts
a write to the dead child's input stream, so the caller fails later through
the write-error or timeout path rather than with a permanent-unavailability
error. -/
theorem claim2_amended_permanentStop (st : BridgeState) (m : Msg) (c : Nat) :
    (st.maxRestarts ≤ st.restartCount →
      (handleChildExit st).1.restartCount = st.restartCount ∧
      (handleChildExit st).1.isRestarting = st.isRestarting ∧
      ∀ d, Event.scheduleRestart d ∉ (handleChildExit st).2) ∧
    ((st.child = none ∨ st.child = some { killed := true }) →
      sendToChild st m c = (st, [], SendOutcome.rejectedNotRunning)) ∧
    (st.child = some { killed := false } →
      (sendToChild st m c).2.2 = SendOutcome.written ∧
      (sendToChild st m c).2.1 = [Event.write m]) := by
  refine ⟨?_, ?_, ?_⟩
  · intro hmax
    have hb : ¬ (st.isRestarting = false ∧
        st.restartCount < st.maxRestarts) := by
      rintro ⟨-, hlt⟩
      omega
    refine ⟨by simp [handleChildExit, hb], by simp [handleChildExit, hb], ?_⟩
    intro d hd
    simp only [handleChildExit, hb, if_neg, if_false] at hd
    rcases List.mem_append.mp hd with hd | hd
    · rcases List.mem_map.mp hd with ⟨p, -, hp⟩
      exact Event.noConfusion hp
    · simp only [List.mem_singleton] at hd
      exact Event.noConfusion hd
  · rintro (hch | hch) <;> simp [sendToChild, hch]
  · intro hch
    constructor <;> simp [sendToChild, hch]

/-- C2 amended witness: the exhausted state reached by `exhaustTrace`. -/
theorem claim2_amended_permanentStop_witness :
    ((run (fun _ => none) initialBridge exhaustTrace).1.maxRestarts ≤
      (run (fun _ => none) initialBridge exhaustTrace).1.restartCount) ∧
    (handleChildExit
        (run (fun _ => none) initialBridge exhaustTrace).1).1.restartCount =
      (run (fun _ => none) initialBridge exhaustTrace).1.restartCount :=
  ⟨by decide,
   ((claim2_amended_permanentStop
      (run (fun _ => none) initialBridge exhaustTrace).1
      { id := 9, isError := false } 7).1 (by decide)).1⟩

/-- C5 counterexample: with id 5 already pending for caller 10, a second
registration of id 5 (on behalf of caller 11) succeeds — `Map.set` silently
replaces the first caller's record — refuting the claim that a second
register with an already-pending identifier does not succeed. -/
theorem claim5_counterexample :
    (sendToChild { initialBridge with inflight := [(5, 10)] }
        { id := 5, isError := false } 11).2.2 = SendOutcome.written ∧
    (sendToChild { initialBridge with inflight := [(5, 10)] }
        { id := 5, isError := false } 11).1.inflight = [(5, 11)] ∧
    mapGet (sendToChild { initialBridge with inflight := [(5, 10)] }
        { id := 5, isError := false } 11).1.inflight 5 = some 11 := by
  decide

/-- C5 (amended): registering a request whose identifier is already pending
does not fail and does not leave the first record in place: with a live
child, `sendToChild` overwrites the pending entry with the new caller's
record (`Map.set` replace-in-place) and proceeds with the write; the first
caller's record is silently dropped. -/
theorem claim5_amended_registerReplaces (st : BridgeState) (m : Msg)
    (c c0 : Nat) (hch : st.child = some { killed := false })
    (hdup : mapGet st.inflight m.id = some c0) :
    (sendToChild st m c).2.2 = SendOutcome.written ∧
    (sendToChild st m c).2.1 = [Event.write m] ∧
    mapGet (sendToChild st m c).1.inflight m.id = some c := by
  refine ⟨by simp [sendToChild, hch], by simp [sendToChild, hch], ?_⟩
  simp [sendToChild, hch, mapGet_mapSet_self]

/-- C5 amended witness: the duplicate registration at id 5. -/
theorem claim5_amended_registerReplaces_witness :
    mapGet ([(5, 10)] : List (Nat × Nat)) 5 = some 10 ∧
    mapGet (sendToChild { initialBridge with inflight := [(5, 10)] }
        { id := 5, isError := false } 11).1.inflight 5 = some 11 :=
  ⟨by decide,
   (claim5_amended_registerReplaces
      { initialBridge with inflight := [(5, 10)] }
      { id := 5, isError := false } 11 10 rfl (by decide)).2.2⟩

/-- C1: at-most-once resolution.  Over any trace of bridge operations that
never (re-)registers id `i`, the number of resolve/reject events delivered
for `i`, plus the number of entries still pending for `i`, never exceeds the
single pending entry `i` started with (so a caller is settled at most
once); a response for an id with no pending entry is logged and dropped
with the whole state unchanged; and resolving a message always removes its
pending entry (removal happens before the resolution callback runs). -/
theorem claim1_atMostOnceResolution (parse : List Char → Option Msg)
    (st : BridgeState) (ops : List Op) (i : Nat)
    (hwf : wfMap st.inflight)
    (hops : ∀ op ∈ ops, avoidsRegister i op = true) :
    (resCount i (run parse st ops).2 + pending01 i (run parse st ops).1 ≤
      pending01 i st) ∧
    (∀ (st0 : BridgeState) (m : Msg), m.id = i →
      mapGet st0.inflight i = none →
      handleMessage st0 m = (st0, [Event.unknownIdLog i])) ∧
    (∀ (st0 : BridgeState) (m : Msg) (c : Nat),
      mapGet st0.inflight m.id = some c →
      mapGet (handleMessage st0 m).1.inflight m.id = none) := by
  refine ⟨run_resCount parse st ops i hwf hops, ?_, ?_⟩
  · intro st0 m hm hn
    subst hm
    unfold handleMessage
    simp [hn]
  · intro st0 m c hc
    unfold handleMessage
    simp only [hc]
    split <;> simp [mapGet_mapErase_self]

/-- C1 witness: one pending request (id 5), then a timeout firing and a
chunk of child output under a parse function that accepts nothing. -/
theorem claim1_atMostOnceResolution_witness :
    wfMap ([(5, 2)] : List (Nat × Nat)) ∧
    (∀ op ∈ ([Op.timeoutFireOp 5, Op.chunk ['x', '\n']] : List Op),
      avoidsRegister 5 op = true) ∧
    (resCount 5 (run (fun _ => none)
        { initialBridge with inflight := [(5, 2)] }
        [Op.timeoutFireOp 5, Op.chunk ['x', '\n']]).2 +
      pending01 5 (run (fun _ => none)
        { initialBridge with inflight := [(5, 2)] }
        [Op.timeoutFireOp 5, Op.chunk ['x', '\n']]).1 ≤
      pending01 5 { initialBridge with inflight := [(5, 2)] }) :=
  ⟨by simp [wfMap], by decide,
   (claim1_atMostOnceResolution (fun _ => none)
      { initialBridge with inflight := [(5, 2)] }
      [Op.timeoutFireOp 5, Op.chunk ['x', '\n']] 5
      (by simp [wfMap]) (by decide)).1⟩

/-- C4: handshake coalescing and retryability.  While `this.initPromise`
exists (handshake in progress or complete), every `initializeChild` call
returns it unchanged, sending nothing — so concurrent callers share one
exchange and exactly one handshake message is ever written (the sole write
happens on the `NotStarted → InProgress` transition); on transport failure
of the pending handshake (timeout or write error) the state returns to
not-started (`initPromise = null`), not a poisoned state, so a later call
starts a fresh handshake; and in every reachable state a completed handshake
implies the promise is still held, so `ensureReady` resolves immediately. -/
theorem claim4_handshakeCoalescing (parse : List Char → Option Msg)
    (st : BridgeState) (i c : Nat) (ops : List Op) :
    (st.initPromise.isSome → initializeChild st = (st, [], InitOutcome.shared)) ∧
    (st.initPromise = none → st.child = some { killed := false } →
      (initializeChild st).2.1 = [Event.write (initMsg st.requestId)] ∧
      (initializeChild st).1.initPromise = some st.requestId ∧
      (initializeChild st).2.2 = InitOutcome.started st.requestId ∧
      initializeChild (initializeChild st).1 =
        ((initializeChild st).1, [], InitOutcome.shared)) ∧
    (st.initPromise = some i → st.initSettled = false →
      mapGet st.inflight i = some c →
      (timeoutFire st i).1.initPromise = none ∧
      (writeFailCb st i).1.initPromise = none) ∧
    (handleChildExit st).1.initPromise = none ∧
    ((run parse initialBridge ops).1.initialized = true →
      ((run parse initialBridge ops).1.initPromise).isSome) := by
  refine ⟨?_, ?_, ?_, ?_, ?_⟩
  · intro hp
    rcases hs : st.initPromise with _ | j
    · rw [hs] at hp
      exact absurd hp (by simp)
    · unfold initializeChild
      simp [hs]
  · intro hp hch
    refine ⟨?_, ?_, ?_, ?_⟩ <;> unfold initializeChild <;>
      simp [hp, sendToChild, hch, initMsg]
  · intro hp hs hc
    constructor
    · unfold timeoutFire
      simp only [hc]
      simp [hp, hs]
    · unfold writeFailCb
      simp only [hc]
      simp [hp, hs]
  · by_cases hb : st.isRestarting = false ∧
        st.restartCount < st.maxRestarts <;> simp [handleChildExit, hb]
  · intro hi
    have h0 : handshakeInv initialBridge := by
      intro h
      exact absurd h (by simp [initialBridge])
    exact (run_handshakeInv parse initialBridge ops h0 hi).1

/-- The state just after the first handshake request (id 1) went out:
it is pending in the correlator and `this.initPromise` holds its promise. -/
def initPendingState : BridgeState :=
  { initialBridge with inflight := [(1, 1)], initPromise := some 1, initSettled := false, requestId := 2 }

/-- C4 witness: a held promise is shared untouched; from not-started with a
live child exactly one handshake write goes out; a timeout of the pending
handshake resets to not-started. -/
theorem claim4_handshakeCoalescing_witness :
    initializeChild { initialBridge with initPromise := some 1 } =
      ({ initialBridge with initPromise := some 1 }, [],
        InitOutcome.shared) ∧
    (initializeChild initialBridge).2.1 = [Event.write (initMsg 1)] ∧
    (timeoutFire initPendingState 1).1.initPromise = none :=
  ⟨(claim4_handshakeCoalescing (fun _ => none)
      { initialBridge with initPromise := some 1 } 1 1 []).1 (by decide),
   ((claim4_handshakeCoalescing (fun _ => none) initialBridge 1 1 []).2.1
      rfl rfl).1,
   ((claim4_handshakeCoalescing (fun _ => none)
      initPendingState 1 1 []).2.2.1 rfl rfl (by decide)).1⟩

/-- C10 (implicit): the handshake is marked complete on ANY correlated
response to the initialize request — `sendToChild(msg).then(() =>
initialized = true)` never inspects the response, so a JSON-RPC error
envelope from the child also completes it; the handshake reverts to
not-started only through transport-level failures (timeout, write failure,
child exit), never because of the response's content. -/
theorem claim10_initCompleteOnAnyResponse (st : BridgeState) (m : Msg)
    (c : Nat) (hp : st.initPromise = some m.id)
    (hs : st.initSettled = false)
    (hc : mapGet st.inflight m.id = some c) :
    (handleMessage st m).1.initialized = true ∧
    (handleMessage st m).1.initPromise = some m.id ∧
    (handleMessage st m).2 = [Event.resolve m.id c m] ∧
    (handleMessage st { id := m.id, isError := true }).1.initialized = true ∧
    (timeoutFire st m.id).1.initPromise = none ∧
    (timeoutFire st m.id).1.initialized = st.initialized ∧
    (writeFailCb st m.id).1.initPromise = none ∧
    (handleChildExit st).1.initialized = false ∧
    (handleChildExit st).1.initPromise = none := by
  refine ⟨?_, ?_, ?_, ?_, ?_, ?_, ?_, ?_, ?_⟩
  · unfold handleMessage
    simp only [hc]
    simp [hp, hs]
  · unfold handleMessage
    simp only [hc]
    simp [hp, hs]
  · unfold handleMessage
    simp only [hc]
    simp [hp, hs]
  · unfold handleMessage
    simp only []
    simp only [show mapGet st.inflight (Msg.mk m.id true).id = some c from hc]
    simp [hp, hs]
  · unfold timeoutFire
    simp only [hc]
    simp [hp, hs]
  · exact (timeoutFire_fields st m.id).2.2.2.2.2.2
  · unfold writeFailCb
    simp only [hc]
    simp [hp, hs]
  · by_cases hb : st.isRestarting = false ∧
        st.restartCount < st.maxRestarts <;> simp [handleChildExit, hb]
  · by_cases hb : st.isRestarting = false ∧
        st.restartCount < st.maxRestarts <;> simp [handleChildExit, hb]

/-- C10 witness: the child answers the pending initialize request (id 1)
with a JSON-RPC error envelope; the handshake is still marked complete. -/
theorem claim10_initCompleteOnAnyResponse_witness :
    (handleMessage initPendingState
        { id := 1, isError := true }).1.initialized = true :=
  (claim10_initCompleteOnAnyResponse initPendingState
    { id := 1, isError := true } 1 rfl rfl (by decide)).1

end Bridge

